import Mathlib

/-!
Shallow embedding of the ingestion / track-state engine of l2pGUI
(src/l2pGUI/l2pGUI.py).  Python floats are modelled as exact rationals;
the float constant np.pi is modelled as an explicit parameter piQ threaded
through the functions that use it.  Python float(token) conversion, which
either yields a number or raises ValueError, is modelled by an Option on a
token type; a Python function that can raise mid-mutation is modelled as
Except sigma sigma, the error carrying the partially mutated state.
-/

namespace L2pGUI

/-- A whitespace-separated wire token: either one that float() parses to a
number, or a non-numeric token. -/
inductive Tok where
  | num (q : ℚ)
  | raw (s : String)
deriving DecidableEq

/-- Python float(tok): some value if the token is numeric, none (ValueError)
otherwise. -/
def pyfloat : Tok → Option ℚ
  | .num q => some q
  | .raw _ => none

/-- Default token used for list indexing (callers guarantee token count 13,
so this default is never hit on the paths the program exercises). -/
def dTok : Tok := .raw ""

/-- Token i of a line (default token when absent). -/
def tokAt (l : List Tok) (i : ℕ) : Tok := l.getD i dTok

/-- Numeric value of token i of a line (0 when absent or non-numeric). -/
def fld (l : List Tok) (i : ℕ) : ℚ := (pyfloat (tokAt l i)).getD 0

/-- Token i of the line parses as a number. -/
def numAt (l : List Tok) (i : ℕ) : Bool := (pyfloat (tokAt l i)).isSome

/-- A well-formed position line: 13 tokens, with every field the engine
converts by float() actually numeric (indices 0,1,4,5,6,7,8,9). -/
def wfLine (l : List Tok) : Prop :=
  l.length = 13 ∧ numAt l 0 = true ∧ numAt l 1 = true ∧ numAt l 4 = true ∧
  numAt l 5 = true ∧ numAt l 6 = true ∧ numAt l 7 = true ∧ numAt l 8 = true ∧
  numAt l 9 = true

instance (l : List Tok) : Decidable (wfLine l) := by
  unfold wfLine; infer_instance

/-- State of class Plane: per-aircraft track. -/
structure Plane where
  minel : ℚ
  mjd : List ℚ
  id : Tok
  code : Tok
  epc : List ℚ
  last_epoch : ℚ
  lat : List ℚ
  lon : List ℚ
  alt : List ℚ
  ran : List ℚ
  az : List ℚ
  el : List ℚ
  maxel : ℚ
  gaps : ℚ
deriving DecidableEq

/-- Corrected epoch: Plane.addLine adds 86000 when the incoming epoch is
numerically below the last observed one. -/
def corrE (p : Plane) (e1 : ℚ) : ℚ :=
  if e1 < p.last_epoch then e1 + 86000 else e1

/-- The fully appended plane produced by an admitted line in Plane.addLine:
every sample list extended by one entry, last epoch advanced, running
maximum elevation updated. -/
def appendPlane (piQ : ℚ) (p : Plane) (e2 m0 la lo al ra az8 e9 : ℚ) : Plane :=
  { p with
    mjd := p.mjd ++ [m0],
    epc := p.epc ++ [e2],
    last_epoch := e2,
    lat := p.lat ++ [la],
    lon := p.lon ++ [lo],
    alt := p.alt ++ [al * 0.3048],
    ran := p.ran ++ [ra],
    az := p.az ++ [piQ / 180 * az8],
    el := p.el ++ [e9],
    maxel := if e9 > p.maxel then e9 else p.maxel }

/-- Plane.addLine.  The Except error value carries the state of the plane at
the point the failing float() conversion raised, since Python mutates the
object in place; the mutation order follows the source line by line. -/
def addLine (piQ : ℚ) (p : Plane) (l : List Tok) : Except Plane Plane :=
  if l.length = 13 then
    match pyfloat (tokAt l 9) with
    | none => .error p
    | some el9 =>
      if el9 < p.minel then .ok p
      else
        match pyfloat (tokAt l 1) with
        | none => .error p
        | some e1 =>
          let e2 := if e1 < p.last_epoch then e1 + 86000 else e1
          let p1 : Plane := { p with epc := p.epc ++ [e2] }
          if e2 - p.last_epoch > 600000 then
            .ok { p1 with gaps := 1, epc := p1.epc.dropLast }
          else
            match pyfloat (tokAt l 0) with
            | none => .error p1
            | some m0 =>
              let p2 : Plane := { p1 with mjd := p1.mjd ++ [m0], last_epoch := e2 }
              match pyfloat (tokAt l 4) with
              | none => .error p2
              | some la =>
                let p3 : Plane := { p2 with lat := p2.lat ++ [la] }
                match pyfloat (tokAt l 5) with
                | none => .error p3
                | some lo =>
                  let p4 : Plane := { p3 with lon := p3.lon ++ [lo] }
                  match pyfloat (tokAt l 6) with
                  | none => .error p4
                  | some al =>
                    let p5 : Plane := { p4 with alt := p4.alt ++ [al * 0.3048] }
                    match pyfloat (tokAt l 7) with
                    | none => .error p5
                    | some ra =>
                      let p6 : Plane := { p5 with ran := p5.ran ++ [ra] }
                      match pyfloat (tokAt l 8) with
                      | none => .error p6
                      | some az8 =>
                        let p7 : Plane := { p6 with az := p6.az ++ [piQ / 180 * az8] }
                        let p8 : Plane := { p7 with el := p7.el ++ [el9] }
                        .ok { p8 with maxel := if el9 > p8.maxel then el9 else p8.maxel }
  else .ok p

/-- The plane state built by Plane.init just before it calls addLine. -/
def initPlane (l : List Tok) (minel : ℚ) : Plane :=
  { minel := minel, mjd := [], id := tokAt l 2, code := tokAt l 3,
    epc := [], last_epoch := (pyfloat (tokAt l 1)).getD 0,
    lat := [], lon := [], alt := [], ran := [], az := [], el := [],
    maxel := -10, gaps := 0 }

/-- Plane.init: sets last epoch from float(l[1]) (which may raise), then
defers to addLine.  An exception inside the constructor discards the
half-built object, so the error carries no plane. -/
def mkPlane (piQ : ℚ) (l : List Tok) (minel : ℚ) : Except Unit Plane :=
  match pyfloat (tokAt l 1) with
  | none => .error ()
  | some _ =>
    match addLine piQ (initPlane l minel) l with
    | .error _ => .error ()
    | .ok p2 => .ok p2

/-- The planes dictionary: insertion-ordered association list keyed by the
identifier token, mirroring a Python dict. -/
abbrev Dict := List (Tok × Plane)

/-- Python dict lookup. -/
def dictGet : Dict → Tok → Option Plane
  | [], _ => none
  | (k, v) :: r, key => if k = key then some v else dictGet r key

/-- Python dict assignment: replace the value of an existing key in place,
otherwise append at the end (insertion order). -/
def dictSet : Dict → Tok → Plane → Dict
  | [], key, pl => [(key, pl)]
  | (k, v) :: r, key, pl =>
      if k = key then (k, pl) :: r else (k, v) :: dictSet r key pl

/-- The eviction pass at the end of addPlanes: delete every plane whose last
epoch differs from the reference epoch by more than time_alive. -/
def evict (P : Dict) (E t : ℚ) : Dict :=
  P.filter (fun kv => decide (¬ |E - kv.2.last_epoch| > t))

/-- The per-line loop of addPlanes.  Each line: read the identifier, convert
the elevation (which may raise with the dictionary as it stands), and when
the elevation strictly exceeds the cutoff either construct a new Plane or
feed the line to the existing one; an exception inside addLine leaves the
partially mutated plane in the dictionary. -/
def addPlanesLoop (piQ minel : ℚ) : Dict → List (List Tok) → Except Dict Dict
  | P, [] => .ok P
  | P, l :: rest =>
    let plane_id := tokAt l 2
    match pyfloat (tokAt l 9) with
    | none => .error P
    | some el9 =>
      if el9 > minel then
        match dictGet P plane_id with
        | none =>
          match mkPlane piQ l minel with
          | .error _ => .error P
          | .ok pl => addPlanesLoop piQ minel (dictSet P plane_id pl) rest
        | some pl =>
          match addLine piQ pl l with
          | .error pl2 => .error (dictSet P plane_id pl2)
          | .ok pl2 => addPlanesLoop piQ minel (dictSet P plane_id pl2) rest
      else addPlanesLoop piQ minel P rest

/-- addPlanes: the per-line loop, then (unless the dictionary or the batch is
empty) the staleness eviction, guarded by time_alive strictly positive, with
the reference epoch taken from the raw epoch field of the last line of the
batch. -/
def addPlanes (piQ : ℚ) (planeLines : List (List Tok)) (P : Dict)
    (minel t : ℚ) : Except Dict Dict :=
  match addPlanesLoop piQ minel P planeLines with
  | .error D => .error D
  | .ok P2 =>
    if P2.isEmpty || planeLines.isEmpty then .ok P2
    else if t > 0 then
      match planeLines.getLast? with
      | none => .ok P2
      | some lst =>
        match pyfloat (tokAt lst 1) with
        | none => .error P2
        | some E => .ok (evict P2 E t)
    else .ok P2

/-- Folding addPlanes over successive batches, starting from a dictionary;
a raised exception aborts the run, as it would abort the caller. -/
def runBatches (piQ minel t : ℚ) (P : Dict) :
    List (List (List Tok)) → Except Dict Dict
  | [] => .ok P
  | b :: bs =>
    match addPlanes piQ b P minel t with
    | .error D => .error D
    | .ok P2 => runBatches piQ minel t P2 bs

/-- Folding addLine over successive lines on one plane. -/
def runLines (piQ : ℚ) (p : Plane) : List (List Tok) → Except Plane Plane
  | [] => .ok p
  | l :: ls =>
    match addLine piQ p l with
    | .error p2 => .error p2
    | .ok p2 => runLines piQ p2 ls

/-- Underlying dictionary of an addPlanes outcome, error state included. -/
def exDict : Except Dict Dict → Dict
  | .ok D => D
  | .error D => D

/-- True exactly when the computation returned normally. -/
def exceptVal (e : Except Dict Dict) : Bool :=
  match e with
  | .ok _ => true
  | .error _ => false

/-- All eight sample sequences of a plane have the same length. -/
def sameLen (p : Plane) : Prop :=
  p.epc.length = p.mjd.length ∧ p.lat.length = p.mjd.length ∧
  p.lon.length = p.mjd.length ∧ p.alt.length = p.mjd.length ∧
  p.ran.length = p.mjd.length ∧ p.az.length = p.mjd.length ∧
  p.el.length = p.mjd.length

instance (p : Plane) : Decidable (sameLen p) := by
  unfold sameLen; infer_instance

/-- Last-epoch coherence: a nonempty epoch sequence ends in last_epoch. -/
def epcInv (p : Plane) : Prop :=
  p.epc ≠ [] → p.epc.getLast? = some p.last_epoch

instance (p : Plane) : Decidable (epcInv p) := by
  unfold epcInv; infer_instance

/-- addLine admits the line: well formed, elevation at or above the plane
cutoff, and the corrected-epoch gap check passes. -/
def accepted (p : Plane) (l : List Tok) : Prop :=
  wfLine l ∧ ¬ fld l 9 < p.minel ∧
  ¬ corrE p (fld l 1) - p.last_epoch > 600000

instance (p : Plane) (l : List Tok) : Decidable (accepted p l) := by
  unfold accepted; infer_instance

/-- Supervisor-side state: the hand-off queue, a worker incarnation counter,
the server address the worker is bound to, and the planes dictionary. -/
structure SupState where
  planeQueue : List (List Tok)
  workerGen : ℕ
  host : String × ℕ
  P : Dict
deriving DecidableEq

/-- L2pRadar.reconnect: discard the queue, create a fresh one, terminate the
worker and start a fresh one bound to the same L2P_HOST; the planes
dictionary is not touched. -/
def reconnect (s : SupState) : SupState :=
  { s with planeQueue := [], workerGen := s.workerGen + 1 }

/-- L2pRadar.process_lines: classify each drained line by token count
(13 to the plane group, 6 to the telescope group, 2 triggers reconnect,
anything else contributes nothing). -/
def process_lines (s : SupState) : List (List Tok) →
    List (List Tok) × List (List Tok) × SupState
  | [] => ([], [], s)
  | line :: rest =>
    if line.length = 13 then
      let r := process_lines s rest
      (line :: r.1, r.2.1, r.2.2)
    else if line.length = 6 then
      let r := process_lines s rest
      (r.1, line :: r.2.1, r.2.2)
    else if line.length = 2 then
      process_lines (reconnect s) rest
    else
      process_lines s rest

/-- Outcome of one send/receive round trip of the transport worker. -/
inductive XferResult where
  | sendFail
  | recvFail
  | recvOk (data : List Tok)
deriving DecidableEq

/-- The sentinel payload put on the queue on transport failure; its split
has exactly two tokens. -/
def connErrorLine : List Tok := [.raw "CONN", .raw "ERROR"]

/-- receive_proc as a function of the script of network outcomes: each
successful exchange forwards its payload; the first send or receive failure
puts the sentinel and breaks out of the loop, ignoring the rest. -/
def receive_proc : List XferResult → List (List Tok)
  | [] => []
  | .sendFail :: _ => [connErrorLine]
  | .recvFail :: _ => [connErrorLine]
  | .recvOk d :: rest => d :: receive_proc rest

/-- Loop body of dataFakeRead.  The file is a list of lines, the position is
a line index (readline past the end returns the empty string, whose split is
empty, and leaves the position in place).  budget counts the further reads
allowed before the N_lines cutoff breaks the loop; the first yield, which is
the one the caller consumes, returns the classified groups and the file
position. -/
def dfrLoop (file : List (List Tok)) :
    ℕ → ℕ → List (List Tok) → List (List Tok) →
    List (List Tok) × List (List Tok) × ℕ
  | budget, pos, plines, tlines =>
    if pos < file.length then
      let line := file.getD pos []
      let plines2 := if line.length = 13 then plines ++ [line] else plines
      let tlines2 := if line.length = 6 then tlines ++ [line] else tlines
      match budget with
      | 0 => (plines2, tlines2, pos + 1)
      | b + 1 => dfrLoop file b (pos + 1) plines2 tlines2
    else (plines, tlines, pos)

/-- dataFakeRead: none as the initial position seeks to the end of the file
first; the loop reads at most N_lines + 1 lines and stops early at end of
file. -/
def dataFakeRead (file : List (List Tok)) (init_pos : Option ℕ)
    (N_lines : ℕ) : List (List Tok) × List (List Tok) × ℕ :=
  match init_pos with
  | none => dfrLoop file N_lines file.length [] []
  | some p => dfrLoop file N_lines p [] []

/-! ## Basic lemmas -/

theorem pyfloat_eq_of_numAt {l : List Tok} {i : ℕ} (h : numAt l i = true) :
    pyfloat (tokAt l i) = some (fld l i) := by
  unfold numAt at h
  unfold fld
  cases hp : pyfloat (tokAt l i) with
  | none => rw [hp] at h; simp at h
  | some q => simp [hp]

/-- Complete case analysis of addLine on a well-formed line: elevation
rejection returns the plane unchanged, the gap branch only sets the gap
flag, and otherwise every sample list is extended by exactly the decoded
(and converted) field values. -/
theorem addLine_cases (piQ : ℚ) (p : Plane) (l : List Tok) (hwf : wfLine l) :
    (fld l 9 < p.minel → addLine piQ p l = .ok p) ∧
    (¬ fld l 9 < p.minel → corrE p (fld l 1) - p.last_epoch > 600000 →
      addLine piQ p l = .ok { p with gaps := 1 }) ∧
    (¬ fld l 9 < p.minel → ¬ corrE p (fld l 1) - p.last_epoch > 600000 →
      addLine piQ p l = .ok (appendPlane piQ p (corrE p (fld l 1)) (fld l 0)
        (fld l 4) (fld l 5) (fld l 6) (fld l 7) (fld l 8) (fld l 9))) := by
  obtain ⟨h13, h0, h1, h4, h5, h6, h7, h8, h9⟩ := hwf
  have e0 := pyfloat_eq_of_numAt h0
  have e1 := pyfloat_eq_of_numAt h1
  have e4 := pyfloat_eq_of_numAt h4
  have e5 := pyfloat_eq_of_numAt h5
  have e6 := pyfloat_eq_of_numAt h6
  have e7 := pyfloat_eq_of_numAt h7
  have e8 := pyfloat_eq_of_numAt h8
  have e9 := pyfloat_eq_of_numAt h9
  unfold corrE
  refine ⟨?_, ?_, ?_⟩
  · intro hel
    simp only [addLine]
    rw [if_pos h13]
    simp only [e9]
    rw [if_pos hel]
  · intro hel hgap
    simp only [addLine]
    rw [if_pos h13]
    simp only [e9, e1]
    rw [if_neg hel, if_pos hgap]
    simp
  · intro hel hgap
    simp only [addLine]
    rw [if_pos h13]
    simp only [e9, e1, e0, e4, e5, e6, e7, e8]
    rw [if_neg hel, if_neg hgap]
    simp [appendPlane]

/-- On a well-formed line addLine never raises, and the result is one of:
the unchanged plane (elevation rejection), the plane with only the gap flag
set (gap discard), or the fully appended plane. -/
theorem addLine_wf_ok (piQ : ℚ) (p : Plane) (l : List Tok) (hwf : wfLine l) :
    ∃ p2, addLine piQ p l = .ok p2 ∧
      (p2 = p ∨ p2 = { p with gaps := 1 } ∨
       p2 = appendPlane piQ p (corrE p (fld l 1)) (fld l 0) (fld l 4)
              (fld l 5) (fld l 6) (fld l 7) (fld l 8) (fld l 9)) := by
  obtain ⟨c1, c2, c3⟩ := addLine_cases piQ p l hwf
  by_cases hel : fld l 9 < p.minel
  · exact ⟨p, c1 hel, Or.inl rfl⟩
  · by_cases hgap : corrE p (fld l 1) - p.last_epoch > 600000
    · exact ⟨_, c2 hel hgap, Or.inr (Or.inl rfl)⟩
    · exact ⟨_, c3 hel hgap, Or.inr (Or.inr rfl)⟩

/-- On a well-formed line the constructor never raises and produces the
freshly initialised plane after one addLine pass. -/
theorem mkPlane_wf_ok (piQ : ℚ) (l : List Tok) (minel : ℚ) (hwf : wfLine l) :
    ∃ p2, mkPlane piQ l minel = .ok p2 ∧
      (p2 = initPlane l minel ∨ p2 = { initPlane l minel with gaps := 1 } ∨
       p2 = appendPlane piQ (initPlane l minel)
              (corrE (initPlane l minel) (fld l 1)) (fld l 0) (fld l 4)
              (fld l 5) (fld l 6) (fld l 7) (fld l 8) (fld l 9)) := by
  have e1 := pyfloat_eq_of_numAt hwf.2.2.1
  obtain ⟨p2, hp2, hc⟩ := addLine_wf_ok piQ (initPlane l minel) l hwf
  refine ⟨p2, ?_, hc⟩
  simp only [mkPlane, e1, hp2]

theorem dictGet_mem {P : Dict} {k : Tok} {p : Plane}
    (h : dictGet P k = some p) : (k, p) ∈ P := by
  induction P with
  | nil => simp [dictGet] at h
  | cons kv r ih =>
    obtain ⟨k2, v⟩ := kv
    rw [dictGet] at h
    by_cases hk : k2 = k
    · rw [if_pos hk] at h
      injection h with h
      simp [hk, h]
    · rw [if_neg hk] at h
      exact List.mem_cons_of_mem _ (ih h)

theorem mem_dictSet {P : Dict} {k : Tok} {v : Plane} {x : Tok × Plane}
    (h : x ∈ dictSet P k v) : x = (k, v) ∨ x ∈ P := by
  induction P with
  | nil => simpa [dictSet] using h
  | cons kv r ih =>
    obtain ⟨k2, v2⟩ := kv
    rw [dictSet] at h
    by_cases hk : k2 = k
    · rw [if_pos hk] at h
      rcases List.mem_cons.mp h with h | h
      · exact Or.inl (by simp [h, hk])
      · exact Or.inr (List.mem_cons_of_mem _ h)
    · rw [if_neg hk] at h
      rcases List.mem_cons.mp h with h | h
      · exact Or.inr (by simp [h])
      · rcases ih h with h | h
        · exact Or.inl h
        · exact Or.inr (List.mem_cons_of_mem _ h)

/-- Every plane in the dictionary satisfies Q. -/
def dictAll (Q : Plane → Prop) (P : Dict) : Prop := ∀ kv ∈ P, Q kv.2

theorem dictAll_set {Q : Plane → Prop} {P : Dict} {k : Tok} {v : Plane}
    (hP : dictAll Q P) (hv : Q v) : dictAll Q (dictSet P k v) := by
  intro kv hkv
  rcases mem_dictSet hkv with h | h
  · rw [h]; exact hv
  · exact hP kv h

theorem dictAll_evict {Q : Plane → Prop} {P : Dict} {E t : ℚ}
    (hP : dictAll Q P) : dictAll Q (evict P E t) := by
  intro kv hkv
  exact hP kv (List.mem_filter.mp hkv).1

/-- The addPlanes loop never raises on well-formed lines, and any per-plane
property preserved by addLine and established by the constructor is an
invariant of the dictionary. -/
theorem addPlanesLoop_wf (piQ minel : ℚ) (Q : Plane → Prop)
    (hQadd : ∀ p l p2, wfLine l → Q p → addLine piQ p l = .ok p2 → Q p2)
    (hQnew : ∀ l p2, wfLine l → mkPlane piQ l minel = .ok p2 → Q p2) :
    ∀ lines P, (∀ l ∈ lines, wfLine l) → dictAll Q P →
      ∃ P2, addPlanesLoop piQ minel P lines = .ok P2 ∧ dictAll Q P2 := by
  intro lines
  induction lines with
  | nil => exact fun P _ hP => ⟨P, rfl, hP⟩
  | cons l rest ih =>
    intro P hwf hP
    have hwl : wfLine l := hwf l (List.mem_cons_self l rest)
    have hrest : ∀ l2 ∈ rest, wfLine l2 :=
      fun l2 h2 => hwf l2 (List.mem_cons_of_mem _ h2)
    have e9 := pyfloat_eq_of_numAt hwl.2.2.2.2.2.2.2.2
    by_cases hel : fld l 9 > minel
    · cases hget : dictGet P (tokAt l 2) with
      | none =>
        obtain ⟨pn, hmk, _⟩ := mkPlane_wf_ok piQ l minel hwl
        obtain ⟨P2, hP2, hQ2⟩ :=
          ih (dictSet P (tokAt l 2) pn) hrest
            (dictAll_set hP (hQnew l pn hwl hmk))
        refine ⟨P2, ?_, hQ2⟩
        simp only [addPlanesLoop, e9]
        rw [if_pos hel]
        simp only [hget, hmk]
        exact hP2
      | some pl =>
        have hQpl : Q pl := hP (tokAt l 2, pl) (dictGet_mem hget)
        obtain ⟨p2, hal, _⟩ := addLine_wf_ok piQ pl l hwl
        obtain ⟨P2, hP2, hQ2⟩ :=
          ih (dictSet P (tokAt l 2) p2) hrest
            (dictAll_set hP (hQadd pl l p2 hwl hQpl hal))
        refine ⟨P2, ?_, hQ2⟩
        simp only [addPlanesLoop, e9]
        rw [if_pos hel]
        simp only [hget, hal]
        exact hP2
    · obtain ⟨P2, hP2, hQ2⟩ := ih P hrest hP
      refine ⟨P2, ?_, hQ2⟩
      simp only [addPlanesLoop, e9]
      rw [if_neg hel]
      exact hP2

/-- addPlanes never raises on a batch of well-formed lines, and per-plane
invariants survive the eviction pass as well. -/
theorem addPlanes_wf (piQ minel t : ℚ) (Q : Plane → Prop)
    (hQadd : ∀ p l p2, wfLine l → Q p → addLine piQ p l = .ok p2 → Q p2)
    (hQnew : ∀ l p2, wfLine l → mkPlane piQ l minel = .ok p2 → Q p2) :
    ∀ lines P, (∀ l ∈ lines, wfLine l) → dictAll Q P →
      ∃ P2, addPlanes piQ lines P minel t = .ok P2 ∧ dictAll Q P2 := by
  intro lines P hl hP
  obtain ⟨P2, h2, hQ2⟩ := addPlanesLoop_wf piQ minel Q hQadd hQnew lines P hl hP
  by_cases hemp : (P2.isEmpty || lines.isEmpty) = true
  · exact ⟨P2, by simp only [addPlanes, h2]; rw [if_pos hemp], hQ2⟩
  · by_cases ht : t > 0
    · cases hlast : lines.getLast? with
      | none =>
        refine ⟨P2, ?_, hQ2⟩
        simp only [addPlanes, h2]
        rw [if_neg hemp, if_pos ht, hlast]
      | some lst =>
        have hmem : lst ∈ lines := by
          have : lst ∈ lines.getLast? := by rw [hlast]; rfl
          obtain ⟨hne, he⟩ := List.mem_getLast?_eq_getLast this
          exact he ▸ List.getLast_mem hne
        have e1 := pyfloat_eq_of_numAt (hl lst hmem).2.2.1
        refine ⟨evict P2 (fld lst 1) t, ?_, dictAll_evict hQ2⟩
        simp only [addPlanes, h2]
        rw [if_neg hemp, if_pos ht, hlast]
        simp only [e1]
    · refine ⟨P2, ?_, hQ2⟩
      simp only [addPlanes, h2]
      rw [if_neg hemp, if_neg ht]

/-- runBatches never raises on well-formed batches and preserves per-plane
invariants of the store. -/
theorem runBatches_wf (piQ minel t : ℚ) (Q : Plane → Prop)
    (hQadd : ∀ p l p2, wfLine l → Q p → addLine piQ p l = .ok p2 → Q p2)
    (hQnew : ∀ l p2, wfLine l → mkPlane piQ l minel = .ok p2 → Q p2) :
    ∀ batches P, (∀ b ∈ batches, ∀ l ∈ b, wfLine l) → dictAll Q P →
      ∃ P2, runBatches piQ minel t P batches = .ok P2 ∧ dictAll Q P2 := by
  intro batches
  induction batches with
  | nil => exact fun P _ hP => ⟨P, rfl, hP⟩
  | cons b bs ih =>
    intro P hb hP
    obtain ⟨P2, h2, hQ2⟩ :=
      addPlanes_wf piQ minel t Q hQadd hQnew b P
        (hb b (List.mem_cons_self b bs)) hP
    obtain ⟨P3, h3, hQ3⟩ :=
      ih P2 (fun b2 hb2 => hb b2 (List.mem_cons_of_mem _ hb2)) hQ2
    refine ⟨P3, ?_, hQ3⟩
    simp only [runBatches, h2]
    exact h3

theorem sameLen_initPlane (l : List Tok) (minel : ℚ) :
    sameLen (initPlane l minel) := by
  simp [sameLen, initPlane]

theorem sameLen_appendPlane {p : Plane} (h : sameLen p)
    (piQ e2 m0 la lo al ra az8 e9 : ℚ) :
    sameLen (appendPlane piQ p e2 m0 la lo al ra az8 e9) := by
  obtain ⟨a, b, c, d, e, f, g⟩ := h
  simp [sameLen, appendPlane, a, b, c, d, e, f, g]

theorem epcInv_initPlane (l : List Tok) (minel : ℚ) :
    epcInv (initPlane l minel) := by
  intro h
  simp [initPlane] at h

theorem epcInv_appendPlane (p : Plane) (piQ e2 m0 la lo al ra az8 e9 : ℚ) :
    epcInv (appendPlane piQ p e2 m0 la lo al ra az8 e9) := by
  intro _
  simp [appendPlane]

/-- sameLen is preserved by addLine on well-formed lines. -/
theorem addLine_pres_sameLen (piQ : ℚ) (p : Plane) (l : List Tok) (p2 : Plane)
    (hwf : wfLine l) (hs : sameLen p) (h : addLine piQ p l = .ok p2) :
    sameLen p2 := by
  obtain ⟨p3, h3, hc⟩ := addLine_wf_ok piQ p l hwf
  have hp : p2 = p3 := by
    have := h.symm.trans h3
    injection this
  subst hp
  rcases hc with hc | hc | hc
  · rw [hc]; exact hs
  · rw [hc]; exact hs
  · rw [hc]; exact sameLen_appendPlane hs piQ _ _ _ _ _ _ _ _

/-- epcInv is preserved by addLine on well-formed lines. -/
theorem addLine_pres_epcInv (piQ : ℚ) (p : Plane) (l : List Tok) (p2 : Plane)
    (hwf : wfLine l) (hs : epcInv p) (h : addLine piQ p l = .ok p2) :
    epcInv p2 := by
  obtain ⟨p3, h3, hc⟩ := addLine_wf_ok piQ p l hwf
  have hp : p2 = p3 := by
    have := h.symm.trans h3
    injection this
  subst hp
  rcases hc with hc | hc | hc
  · rw [hc]; exact hs
  · rw [hc]; exact hs
  · rw [hc]; exact epcInv_appendPlane p piQ _ _ _ _ _ _ _ _

theorem mkPlane_sameLen (piQ : ℚ) (l : List Tok) (minel : ℚ) (p2 : Plane)
    (hwf : wfLine l) (h : mkPlane piQ l minel = .ok p2) : sameLen p2 := by
  obtain ⟨p3, h3, hc⟩ := mkPlane_wf_ok piQ l minel hwf
  have hp : p2 = p3 := by
    have := h.symm.trans h3
    injection this
  subst hp
  rcases hc with hc | hc | hc
  · rw [hc]; exact sameLen_initPlane l minel
  · rw [hc]; exact sameLen_initPlane l minel
  · rw [hc]; exact sameLen_appendPlane (sameLen_initPlane l minel) piQ _ _ _ _ _ _ _ _

theorem mkPlane_epcInv (piQ : ℚ) (l : List Tok) (minel : ℚ) (p2 : Plane)
    (hwf : wfLine l) (h : mkPlane piQ l minel = .ok p2) : epcInv p2 := by
  obtain ⟨p3, h3, hc⟩ := mkPlane_wf_ok piQ l minel hwf
  have hp : p2 = p3 := by
    have := h.symm.trans h3
    injection this
  subst hp
  rcases hc with hc | hc | hc
  · rw [hc]; exact epcInv_initPlane l minel
  · rw [hc]; exact epcInv_initPlane l minel
  · rw [hc]; exact epcInv_appendPlane _ piQ _ _ _ _ _ _ _ _

/-- A per-plane property preserved by addLine is an invariant of
running a list of lines through the plane. -/
theorem runLines_inv (piQ : ℚ) (Q : Plane → Prop)
    (hQadd : ∀ p l p2, wfLine l → Q p → addLine piQ p l = .ok p2 → Q p2) :
    ∀ ls p pf, (∀ l ∈ ls, wfLine l) → Q p →
      runLines piQ p ls = .ok pf → Q pf := by
  intro ls
  induction ls with
  | nil =>
    intro p pf _ hQ hrun
    have : p = pf := by injection hrun
    exact this ▸ hQ
  | cons l rest ih =>
    intro p pf hwf hQ hrun
    have hwl : wfLine l := hwf l (List.mem_cons_self l rest)
    obtain ⟨p2, hal, _⟩ := addLine_wf_ok piQ p l hwl
    simp only [runLines, hal] at hrun
    exact ih p2 pf (fun l2 h2 => hwf l2 (List.mem_cons_of_mem _ h2))
      (hQadd p l p2 hwl hQ hal) hrun

/-! ## Concrete sample data used by witnesses and counterexamples -/

/-- A sample wire line shaped like the one quoted in the source comments
(13 tokens, identifier at index 2, elevation 7 at index 9), with integer
field values so that kernel reduction can evaluate the comparisons. -/
def wLine : List Tok :=
  [.num 56395, .num 40400, .raw "4ca626", .raw "RYR8JT", .num 51,
   .num (-1), .num 29525, .num 68, .num 280,
   .num 7, .num (-474), .num 191, .num 1088]


/-- A concrete plane already tracking 4ca626, cutoff 0, last epoch 40000. -/
def pW : Plane :=
  { minel := 0, mjd := [56395], id := .raw "4ca626", code := .raw "RYR8JT",
    epc := [40000], last_epoch := 40000, lat := [50], lon := [-1],
    alt := [9000], ran := [68], az := [5], el := [7], maxel := 7, gaps := 0 }

/-- The sample line does not trigger the gap branch on the sample plane. -/
theorem wLine_no_gap : ¬ corrE pW (fld wLine 1) - pW.last_epoch > 600000 := by
  norm_num [corrE, fld, wLine, pW, tokAt, pyfloat, dTok]

/-! ## Claims -/

/-- C1: for every plane and every well-formed position line whose elevation
is not below the cutoff of the plane, addLine computes the corrected epoch by
adding exactly 86000 when the incoming epoch is numerically below the last
observed epoch; if the corrected epoch exceeds the last observed epoch by
more than 600000 the gap flag is set and nothing else changes (no list
grows, the last observed epoch stays); otherwise all eight sample lists are
appended, the last observed epoch becomes the corrected epoch and the
running maximum elevation is updated. -/
theorem C1_epoch_correction (piQ : ℚ) (p : Plane) (l : List Tok)
    (hwf : wfLine l) (hel : ¬ fld l 9 < p.minel) :
    corrE p (fld l 1) =
      (if fld l 1 < p.last_epoch then fld l 1 + 86000 else fld l 1) ∧
    (corrE p (fld l 1) - p.last_epoch > 600000 →
      addLine piQ p l = .ok { p with gaps := 1 }) ∧
    (¬ corrE p (fld l 1) - p.last_epoch > 600000 →
      addLine piQ p l = .ok (appendPlane piQ p (corrE p (fld l 1)) (fld l 0)
        (fld l 4) (fld l 5) (fld l 6) (fld l 7) (fld l 8) (fld l 9))) := by
  obtain ⟨_, c2, c3⟩ := addLine_cases piQ p l hwf
  exact ⟨rfl, c2 hel, c3 hel⟩

/-- Witness for C1 on the sample line and a concrete plane. -/
theorem C1_epoch_correction_witness :
    (wfLine wLine ∧ ¬ fld wLine 9 < pW.minel) ∧
    (corrE pW (fld wLine 1) =
      (if fld wLine 1 < pW.last_epoch then fld wLine 1 + 86000
       else fld wLine 1) ∧
    (corrE pW (fld wLine 1) - pW.last_epoch > 600000 →
      addLine 3 pW wLine = .ok { pW with gaps := 1 }) ∧
    (¬ corrE pW (fld wLine 1) - pW.last_epoch > 600000 →
      addLine 3 pW wLine = .ok (appendPlane 3 pW (corrE pW (fld wLine 1))
        (fld wLine 0) (fld wLine 4) (fld wLine 5) (fld wLine 6)
        (fld wLine 7) (fld wLine 8) (fld wLine 9)))) :=
  ⟨⟨by decide, by decide⟩, C1_epoch_correction 3 pW wLine (by decide) (by decide)⟩

/-- C7: on an admitted line the stored altitude sample is the wire altitude
token times 0.3048, the stored azimuth sample is the wire azimuth token
times the pi constant divided by 180, and latitude, longitude, range and
elevation are stored unconverted, mapped by token position (4, 5, 7, 9). -/
theorem C7_unit_conversion (piQ : ℚ) (p : Plane) (l : List Tok)
    (hwf : wfLine l) (hel : ¬ fld l 9 < p.minel)
    (hgap : ¬ corrE p (fld l 1) - p.last_epoch > 600000) :
    ∃ p2, addLine piQ p l = .ok p2 ∧
      p2.alt = p.alt ++ [fld l 6 * 0.3048] ∧
      p2.az = p.az ++ [piQ / 180 * fld l 8] ∧
      p2.lat = p.lat ++ [fld l 4] ∧
      p2.lon = p.lon ++ [fld l 5] ∧
      p2.ran = p.ran ++ [fld l 7] ∧
      p2.el = p.el ++ [fld l 9] := by
  obtain ⟨_, _, c3⟩ := addLine_cases piQ p l hwf
  exact ⟨_, c3 hel hgap, rfl, rfl, rfl, rfl, rfl, rfl⟩

/-- Witness for C7 on the sample line and a concrete plane. -/
theorem C7_unit_conversion_witness :
    (wfLine wLine ∧ ¬ fld wLine 9 < pW.minel ∧
     ¬ corrE pW (fld wLine 1) - pW.last_epoch > 600000) ∧
    (∃ p2, addLine 3 pW wLine = .ok p2 ∧
      p2.alt = pW.alt ++ [fld wLine 6 * 0.3048] ∧
      p2.az = pW.az ++ [3 / 180 * fld wLine 8] ∧
      p2.lat = pW.lat ++ [fld wLine 4] ∧
      p2.lon = pW.lon ++ [fld wLine 5] ∧
      p2.ran = pW.ran ++ [fld wLine 7] ∧
      p2.el = pW.el ++ [fld wLine 9]) :=
  ⟨⟨by decide, by decide, wLine_no_gap⟩,
   C7_unit_conversion 3 pW wLine (by decide) (by decide) wLine_no_gap⟩

/-- C4: every plane in the store reached by any sequence of batches of
well-formed lines (creation, elevation rejection, rollover correction, gap
discard, eviction included) has its eight sample lists of equal length; and
a single addLine appends exactly one entry to every list when the record is
admitted and leaves every list unchanged when it is not. -/
theorem C4_equal_length_invariant :
    (∀ piQ minel t batches P2,
        (∀ b ∈ batches, ∀ l ∈ b, wfLine l) →
        runBatches piQ minel t [] batches = .ok P2 →
        ∀ k p, dictGet P2 k = some p → sameLen p) ∧
    (∀ piQ p l, wfLine l → sameLen p →
        ∃ p2, addLine piQ p l = .ok p2 ∧ sameLen p2 ∧
          (accepted p l → p2.mjd.length = p.mjd.length + 1) ∧
          (¬ accepted p l →
            p2.mjd = p.mjd ∧ p2.epc = p.epc ∧ p2.lat = p.lat ∧
            p2.lon = p.lon ∧ p2.alt = p.alt ∧ p2.ran = p.ran ∧
            p2.az = p.az ∧ p2.el = p.el)) := by
  constructor
  · intro piQ minel t batches P2 hwf hrun k p hget
    obtain ⟨P3, h3, hall⟩ := runBatches_wf piQ minel t sameLen
      (fun p l p2 hwl hq hal => addLine_pres_sameLen piQ p l p2 hwl hq hal)
      (fun l p2 hwl hmk => mkPlane_sameLen piQ l minel p2 hwl hmk)
      batches [] hwf (by intro kv hkv; simp at hkv)
    rw [hrun] at h3
    injection h3 with h3
    subst h3
    exact hall (k, p) (dictGet_mem hget)
  · intro piQ p l hwf hs
    by_cases hel : fld l 9 < p.minel
    · refine ⟨p, (addLine_cases piQ p l hwf).1 hel, hs, ?_, ?_⟩
      · intro hacc; exact (hacc.2.1 hel).elim
      · intro _; exact ⟨rfl, rfl, rfl, rfl, rfl, rfl, rfl, rfl⟩
    · by_cases hgap : corrE p (fld l 1) - p.last_epoch > 600000
      · refine ⟨_, (addLine_cases piQ p l hwf).2.1 hel hgap, hs, ?_, ?_⟩
        · intro hacc; exact (hacc.2.2 hgap).elim
        · intro _; exact ⟨rfl, rfl, rfl, rfl, rfl, rfl, rfl, rfl⟩
      · refine ⟨_, (addLine_cases piQ p l hwf).2.2 hel hgap,
          sameLen_appendPlane hs piQ _ _ _ _ _ _ _ _, ?_, ?_⟩
        · intro _; simp [appendPlane]
        · intro hnacc; exact (hnacc ⟨hwf, hel, hgap⟩).elim

/-- Witness for C4 on the sample line and a concrete plane. -/
theorem C4_equal_length_invariant_witness :
    (wfLine wLine ∧ sameLen pW) ∧
    (∃ p2, addLine 3 pW wLine = .ok p2 ∧ sameLen p2 ∧
      (accepted pW wLine → p2.mjd.length = pW.mjd.length + 1) ∧
      (¬ accepted pW wLine →
        p2.mjd = pW.mjd ∧ p2.epc = pW.epc ∧ p2.lat = pW.lat ∧
        p2.lon = pW.lon ∧ p2.alt = pW.alt ∧ p2.ran = pW.ran ∧
        p2.az = pW.az ∧ p2.el = pW.el)) :=
  ⟨⟨by decide, by decide⟩,
   C4_equal_length_invariant.2 3 pW wLine (by decide) (by decide)⟩

/-- C10: a plane created by the constructor and fed any sequence of
well-formed lines keeps its last-observed epoch equal to the last element of
its stored epoch sequence whenever that sequence is nonempty; and an addLine
call that does not append (elevation rejection or gap discard) leaves the
last-observed epoch, the epoch list and the mjd list unchanged. -/
theorem C10_last_epoch_coherence :
    (∀ piQ minel l0 ls p0 pf, wfLine l0 → (∀ l ∈ ls, wfLine l) →
        mkPlane piQ l0 minel = .ok p0 → runLines piQ p0 ls = .ok pf →
        epcInv pf) ∧
    (∀ piQ p l, wfLine l → ¬ accepted p l →
        ∃ p2, addLine piQ p l = .ok p2 ∧ p2.last_epoch = p.last_epoch ∧
          p2.mjd = p.mjd ∧ p2.epc = p.epc) := by
  constructor
  · intro piQ minel l0 ls p0 pf hw0 hwls hmk hrun
    exact runLines_inv piQ epcInv
      (fun p l p2 hwl hq hal => addLine_pres_epcInv piQ p l p2 hwl hq hal)
      ls p0 pf hwls (mkPlane_epcInv piQ l0 minel p0 hw0 hmk) hrun
  · intro piQ p l hwf hnacc
    by_cases hel : fld l 9 < p.minel
    · exact ⟨p, (addLine_cases piQ p l hwf).1 hel, rfl, rfl, rfl⟩
    · by_cases hgap : corrE p (fld l 1) - p.last_epoch > 600000
      · exact ⟨_, (addLine_cases piQ p l hwf).2.1 hel hgap, rfl, rfl, rfl⟩
      · exact (hnacc ⟨hwf, hel, hgap⟩).elim

/-- A sample line whose elevation token is below the cutoff of the sample plane. -/
def wLowLine : List Tok :=
  [.num 56395, .num 40400, .raw "4ca626", .raw "RYR8JT", .num 51,
   .num (-1), .num 29525, .num 68, .num 280,
   .num (-5), .num (-474), .num 191, .num 1088]

/-- Witness for C10 on a rejected sample line and a concrete plane. -/
theorem C10_last_epoch_coherence_witness :
    (wfLine wLowLine ∧ ¬ accepted pW wLowLine) ∧
    (∃ p2, addLine 3 pW wLowLine = .ok p2 ∧ p2.last_epoch = pW.last_epoch ∧
      p2.mjd = pW.mjd ∧ p2.epc = pW.epc) :=
  ⟨⟨by decide, fun h => h.2.1 (by decide)⟩,
   C10_last_epoch_coherence.2 3 pW wLowLine (by decide)
     (fun h => h.2.1 (by decide))⟩

theorem process_lines_plines : ∀ (s : SupState) (lines : List (List Tok)),
    (process_lines s lines).1 =
      lines.filter (fun l => decide (l.length = 13)) := by
  intro s lines
  induction lines generalizing s with
  | nil => rfl
  | cons l rest ih =>
    by_cases h13 : l.length = 13
    · simp [process_lines, h13, List.filter_cons, ih]
    · by_cases h6 : l.length = 6
      · simp [process_lines, h13, h6, List.filter_cons, ih]
      · by_cases h2 : l.length = 2
        · simp [process_lines, h13, h6, h2, List.filter_cons, ih]
        · simp [process_lines, h13, h6, h2, List.filter_cons, ih]

theorem process_lines_tlines : ∀ (s : SupState) (lines : List (List Tok)),
    (process_lines s lines).2.1 =
      lines.filter (fun l => decide (l.length = 6)) := by
  intro s lines
  induction lines generalizing s with
  | nil => rfl
  | cons l rest ih =>
    by_cases h13 : l.length = 13
    · have h6 : ¬ l.length = 6 := by omega
      simp [process_lines, h13, h6, List.filter_cons, ih]
    · by_cases h6 : l.length = 6
      · simp [process_lines, h13, h6, List.filter_cons, ih]
      · by_cases h2 : l.length = 2
        · simp [process_lines, h13, h6, h2, List.filter_cons, ih]
        · simp [process_lines, h13, h6, h2, List.filter_cons, ih]

/-- C6: process_lines routes purely by token count: the plane group receives
exactly the 13-token lines and the telescope group exactly the 6-token
lines, in order; a line whose token count is neither 13, 6 nor 2
contributes nothing at all (no record in either group, no state change). -/
theorem C6_token_count_classification :
    (∀ (s : SupState) (lines : List (List Tok)),
       (process_lines s lines).1 =
         lines.filter (fun l => decide (l.length = 13)) ∧
       (process_lines s lines).2.1 =
         lines.filter (fun l => decide (l.length = 6))) ∧
    (∀ (s : SupState) (l : List Tok) (rest : List (List Tok)),
       l.length ≠ 13 → l.length ≠ 6 → l.length ≠ 2 →
       process_lines s (l :: rest) = process_lines s rest) := by
  constructor
  · exact fun s lines => ⟨process_lines_plines s lines,
      process_lines_tlines s lines⟩
  · intro s l rest h13 h6 h2
    simp [process_lines, h13, h6, h2]

/-- A concrete supervisor state used by witnesses. -/
def sW : SupState :=
  { planeQueue := [], workerGen := 0, host := ("l2p-server", 2020),
    P := [(Tok.raw "4ca626", pW)] }

/-- Witness for C6 on a 3-token line, which is dropped silently. -/
theorem C6_token_count_classification_witness :
    ((3 : ℕ) ≠ 13 ∧ (3 : ℕ) ≠ 6 ∧ (3 : ℕ) ≠ 2) ∧
    process_lines sW ([.num 1, .num 2, .num 3] :: [wLine]) =
      process_lines sW [wLine] :=
  ⟨⟨by decide, by decide, by decide⟩,
   C6_token_count_classification.2 sW [.num 1, .num 2, .num 3] [wLine]
     (by decide) (by decide) (by decide)⟩

theorem receive_proc_fail : ∀ (pre : List (List Tok)) (x : XferResult)
    (rest : List XferResult),
    (x = XferResult.sendFail ∨ x = XferResult.recvFail) →
    receive_proc (pre.map XferResult.recvOk ++ x :: rest) =
      pre ++ [connErrorLine] := by
  intro pre
  induction pre with
  | nil =>
    intro x rest hx
    rcases hx with hx | hx <;> subst hx <;> rfl
  | cons d ds ih =>
    intro x rest hx
    simp only [List.map_cons, List.cons_append, receive_proc, List.append_eq]
    rw [ih x rest hx]

/-- C5: a send or receive failure makes the transport worker push the
2-token CONN ERROR payload after the data it already forwarded and stop its
loop; draining a 2-token payload makes the supervisor discard the queue,
replace the worker with a fresh one bound to the same server address, and
leave the planes dictionary untouched. -/
theorem C5_transport_failure_recovery :
    (∀ (pre : List (List Tok)) (x : XferResult) (rest : List XferResult),
       (x = XferResult.sendFail ∨ x = XferResult.recvFail) →
       receive_proc (pre.map XferResult.recvOk ++ x :: rest) =
         pre ++ [connErrorLine] ∧ connErrorLine.length = 2) ∧
    (∀ s : SupState, (reconnect s).P = s.P ∧ (reconnect s).host = s.host ∧
       (reconnect s).planeQueue = [] ∧
       (reconnect s).workerGen = s.workerGen + 1) ∧
    (∀ (s : SupState) (l : List Tok), l.length = 2 →
       process_lines s [l] = ([], [], reconnect s)) := by
  refine ⟨?_, ?_, ?_⟩
  · exact fun pre x rest hx => ⟨receive_proc_fail pre x rest hx, rfl⟩
  · exact fun s => ⟨rfl, rfl, rfl, rfl⟩
  · intro s l h2
    simp [process_lines, h2]

/-- Witness for C5 on a one-payload script ending in a send failure and on
the concrete supervisor state draining the sentinel. -/
theorem C5_transport_failure_recovery_witness :
    ((XferResult.sendFail = XferResult.sendFail ∨
      XferResult.sendFail = XferResult.recvFail) ∧
     connErrorLine.length = 2) ∧
    (receive_proc ([wLine].map XferResult.recvOk ++
        XferResult.sendFail :: []) = [wLine] ++ [connErrorLine] ∧
      connErrorLine.length = 2) ∧
    process_lines sW [connErrorLine] = ([], [], reconnect sW) :=
  ⟨⟨Or.inl rfl, by decide⟩,
   C5_transport_failure_recovery.1 [wLine] XferResult.sendFail [] (Or.inl rfl),
   C5_transport_failure_recovery.2.2 sW connErrorLine (by decide)⟩

theorem dfrLoop_eq (file : List (List Tok)) (budget pos : ℕ)
    (pl tl : List (List Tok)) :
    dfrLoop file budget pos pl tl =
      if pos < file.length then
        let line := file.getD pos []
        let plines2 := if line.length = 13 then pl ++ [line] else pl
        let tlines2 := if line.length = 6 then tl ++ [line] else tl
        match budget with
        | 0 => (plines2, tlines2, pos + 1)
        | b + 1 => dfrLoop file b (pos + 1) plines2 tlines2
      else (pl, tl, pos) := by
  rw [dfrLoop.eq_def]

theorem dfrLoop_eof (file : List (List Tok)) (N pos : ℕ)
    (pl tl : List (List Tok)) (h : file.length ≤ pos) :
    dfrLoop file N pos pl tl = (pl, tl, pos) := by
  rw [dfrLoop_eq]
  rw [if_neg (by omega)]

theorem dfrLoop_off (file : List (List Tok)) :
    ∀ (N pos : ℕ) (pl tl : List (List Tok)), pos ≤ file.length →
      file.length ≤ pos + N + 1 →
      (dfrLoop file N pos pl tl).2.2 = file.length := by
  intro N
  induction N with
  | zero =>
    intro pos pl tl h1 h2
    rw [dfrLoop_eq]
    by_cases hp : pos < file.length
    · rw [if_pos hp]
      simp only []
      omega
    · rw [if_neg hp]
      simp only []
      omega
  | succ N ih =>
    intro pos pl tl h1 h2
    rw [dfrLoop_eq]
    by_cases hp : pos < file.length
    · rw [if_pos hp]
      exact ih (pos + 1) _ _ (by omega) (by omega)
    · rw [if_neg hp]
      simp only []
      omega

/-- C9 counterexample: replaying a one-line file from offset 0 reaches end
of file during the invocation and returns the end offset, yet the batch is
not empty — the lines read before end of file are delivered, not discarded. -/
theorem C9_end_of_stream_counterexample :
    (dataFakeRead [wLine] (some 0) 140).1 ≠ [] ∧
    (dataFakeRead [wLine] (some 0) 140).2.2 =
      ([wLine] : List (List Tok)).length := by
  decide

/-- C9 amended: an invocation whose read window covers the rest of the file
returns the end position of the file as the new offset (the batch holding
whatever lines were classified before end of file); an invocation starting
at or past the end of the file — in particular any subsequent invocation
resuming from a returned end offset — yields an empty batch and the same
offset, and omitting the initial position seeks to the end of the file
first and does the same. -/
theorem C9_end_of_stream :
    (∀ (file : List (List Tok)) (p N : ℕ), file.length ≤ p →
       dataFakeRead file (some p) N = ([], [], p)) ∧
    (∀ (file : List (List Tok)) (N : ℕ),
       dataFakeRead file none N = ([], [], file.length)) ∧
    (∀ (file : List (List Tok)) (p N : ℕ), p ≤ file.length →
       file.length ≤ p + N + 1 →
       (dataFakeRead file (some p) N).2.2 = file.length) := by
  refine ⟨?_, ?_, ?_⟩
  · intro file p N h
    simp only [dataFakeRead]
    exact dfrLoop_eof file N p [] [] h
  · intro file N
    simp only [dataFakeRead]
    exact dfrLoop_eof file N file.length [] [] le_rfl
  · intro file p N h1 h2
    simp only [dataFakeRead]
    exact dfrLoop_off file N p [] [] h1 h2

/-- Witness for C9 amended: resuming from the end offset of the one-line
file yields the empty batch with the same offset. -/
theorem C9_end_of_stream_witness :
    (([wLine] : List (List Tok)).length ≤ 1) ∧
    dataFakeRead [wLine] (some 1) 140 = ([], [], 1) :=
  ⟨by decide, C9_end_of_stream.1 [wLine] 1 140 (by decide)⟩

/-! ## Error-path and eviction lemmas -/

/-- The partially mutated plane left behind when float(l[4]) raises inside
addLine: epoch and mjd already appended, last epoch already advanced. -/
def partialLat (p : Plane) (e2 m0 : ℚ) : Plane :=
  { p with epc := p.epc ++ [e2], mjd := p.mjd ++ [m0], last_epoch := e2 }

theorem addLine_err_el (piQ : ℚ) (p : Plane) (l : List Tok)
    (h13 : l.length = 13) (h9 : pyfloat (tokAt l 9) = none) :
    addLine piQ p l = .error p := by
  simp only [addLine]
  rw [if_pos h13]
  simp only [h9]

theorem addLine_err_lat (piQ : ℚ) (p : Plane) (l : List Tok)
    (e9v e1v m0v : ℚ) (h13 : l.length = 13)
    (h9 : pyfloat (tokAt l 9) = some e9v) (hel : ¬ e9v < p.minel)
    (h1 : pyfloat (tokAt l 1) = some e1v)
    (hgap : ¬ corrE p e1v - p.last_epoch > 600000)
    (h0 : pyfloat (tokAt l 0) = some m0v)
    (h4 : pyfloat (tokAt l 4) = none) :
    addLine piQ p l = .error (partialLat p (corrE p e1v) m0v) := by
  unfold corrE at hgap
  simp only [addLine]
  rw [if_pos h13]
  simp only [h9, h1, h0, h4]
  rw [if_neg hel, if_neg hgap]
  rfl

theorem addPlanesLoop_cons_err_el (piQ minel : ℚ) (P : Dict) (l : List Tok)
    (rest : List (List Tok)) (h9 : pyfloat (tokAt l 9) = none) :
    addPlanesLoop piQ minel P (l :: rest) = .error P := by
  simp only [addPlanesLoop, h9]

theorem addPlanesLoop_cons_skip (piQ minel : ℚ) (P : Dict) (l : List Tok)
    (rest : List (List Tok)) (e : ℚ) (h9 : pyfloat (tokAt l 9) = some e)
    (hle : ¬ e > minel) :
    addPlanesLoop piQ minel P (l :: rest) = addPlanesLoop piQ minel P rest := by
  simp only [addPlanesLoop, h9]
  rw [if_neg hle]

theorem addPlanesLoop_cons_new (piQ minel : ℚ) (P : Dict) (l : List Tok)
    (rest : List (List Tok)) (e : ℚ) (pl : Plane)
    (h9 : pyfloat (tokAt l 9) = some e) (hgt : e > minel)
    (hget : dictGet P (tokAt l 2) = none)
    (hmk : mkPlane piQ l minel = .ok pl) :
    addPlanesLoop piQ minel P (l :: rest) =
      addPlanesLoop piQ minel (dictSet P (tokAt l 2) pl) rest := by
  simp only [addPlanesLoop, h9]
  rw [if_pos hgt]
  simp only [hget, hmk]

theorem addPlanesLoop_cons_known_err (piQ minel : ℚ) (P : Dict)
    (l : List Tok) (rest : List (List Tok)) (e : ℚ) (pl pl2 : Plane)
    (h9 : pyfloat (tokAt l 9) = some e) (hgt : e > minel)
    (hget : dictGet P (tokAt l 2) = some pl)
    (herr : addLine piQ pl l = .error pl2) :
    addPlanesLoop piQ minel P (l :: rest) =
      .error (dictSet P (tokAt l 2) pl2) := by
  simp only [addPlanesLoop, h9]
  rw [if_pos hgt]
  simp only [hget, herr]

theorem addPlanes_of_loop_err {piQ minel t : ℚ} {P D : Dict}
    {lines : List (List Tok)}
    (hloop : addPlanesLoop piQ minel P lines = .error D) :
    addPlanes piQ lines P minel t = .error D := by
  simp only [addPlanes, hloop]

theorem addPlanes_no_evict {piQ minel t : ℚ} {P P2 : Dict}
    {lines : List (List Tok)}
    (hloop : addPlanesLoop piQ minel P lines = .ok P2) (ht : ¬ t > 0) :
    addPlanes piQ lines P minel t = .ok P2 := by
  simp only [addPlanes, hloop]
  by_cases hemp : (P2.isEmpty || lines.isEmpty) = true
  · rw [if_pos hemp]
  · rw [if_neg hemp, if_neg ht]

theorem addPlanes_evict {piQ minel t E : ℚ} {P P2 : Dict}
    {lines : List (List Tok)} {lst : List Tok}
    (hloop : addPlanesLoop piQ minel P lines = .ok P2) (ht : t > 0)
    (hemp : (P2.isEmpty || lines.isEmpty) = false)
    (hlast : lines.getLast? = some lst)
    (hE : pyfloat (tokAt lst 1) = some E) :
    addPlanes piQ lines P minel t = .ok (evict P2 E t) := by
  simp only [addPlanes, hloop]
  rw [if_neg (by simp [hemp]), if_pos ht]
  simp only [hlast, hE]

theorem dictGet_none_of_not_mem {P : Dict} {k : Tok}
    (h : ∀ kv ∈ P, kv.1 ≠ k) : dictGet P k = none := by
  induction P with
  | nil => rfl
  | cons kv r ih =>
    obtain ⟨k2, v⟩ := kv
    rw [dictGet]
    rw [if_neg (h (k2, v) (List.mem_cons_self _ _))]
    exact ih (fun kv2 h2 => h kv2 (List.mem_cons_of_mem _ h2))

/-- Lookup in the evicted dictionary, for key-distinct dictionaries: a plane
survives eviction exactly when it was present and within the age bound. -/
theorem dictGet_evict {P : Dict} {E t : ℚ} {k : Tok} {p : Plane}
    (hnd : (P.map Prod.fst).Nodup) :
    dictGet (evict P E t) k = some p ↔
      dictGet P k = some p ∧ ¬ |E - p.last_epoch| > t := by
  induction P with
  | nil => simp [evict, dictGet]
  | cons kv r ih =>
    obtain ⟨k2, v⟩ := kv
    have hnd0 := List.nodup_cons.mp (show (k2 :: r.map Prod.fst).Nodup from hnd)
    have hk2 : k2 ∉ r.map Prod.fst := hnd0.1
    have hnd2 : (r.map Prod.fst).Nodup := hnd0.2
    by_cases hgt : |E - v.last_epoch| > t
    · have hev : evict ((k2, v) :: r) E t = evict r E t := by
        simp [evict, List.filter_cons, hgt]
      rw [hev]
      by_cases hk : k2 = k
      · subst hk
        rw [dictGet, if_pos rfl]
        have hnone : dictGet (evict r E t) k2 = none := by
          apply dictGet_none_of_not_mem
          intro kv2 h2 hkv
          exact hk2 (hkv ▸ List.mem_map.mpr ⟨kv2, (List.mem_filter.mp h2).1, rfl⟩)
        rw [hnone]
        constructor
        · intro h; exact absurd h (by simp)
        · rintro ⟨h, hp⟩
          injection h with h
          subst h
          exact absurd hgt hp
      · rw [dictGet, if_neg hk]
        exact ih hnd2
    · have hev : evict ((k2, v) :: r) E t = (k2, v) :: evict r E t := by
        simp [evict, List.filter_cons, hgt]
      rw [hev]
      by_cases hk : k2 = k
      · subst hk
        rw [dictGet, if_pos rfl, dictGet, if_pos rfl]
        constructor
        · intro h
          injection h with h
          subst h
          exact ⟨rfl, hgt⟩
        · rintro ⟨h, _⟩
          exact h
      · rw [dictGet, if_neg hk, dictGet, if_neg hk]
        exact ih hnd2

/-- Right after construction the rollover correction is the identity and the
gap branch cannot fire: the last observed epoch equals the incoming epoch. -/
theorem initPlane_no_gap (l : List Tok) (minel : ℚ) :
    corrE (initPlane l minel) (fld l 1) = fld l 1 ∧
    ¬ corrE (initPlane l minel) (fld l 1) -
        (initPlane l minel).last_epoch > 600000 := by
  have hc : corrE (initPlane l minel) (fld l 1) = fld l 1 := by
    simp [corrE, initPlane, fld]
  refine ⟨hc, ?_⟩
  rw [hc]
  have : (initPlane l minel).last_epoch = fld l 1 := by simp [initPlane, fld]
  rw [this]
  simp

/-- Constructing a plane from an admitted well-formed line yields the
initial plane with the single sample appended. -/
theorem mkPlane_append (piQ : ℚ) (l : List Tok) (minel : ℚ)
    (hwf : wfLine l) (hel : ¬ fld l 9 < minel) :
    mkPlane piQ l minel = .ok (appendPlane piQ (initPlane l minel)
      (fld l 1) (fld l 0) (fld l 4) (fld l 5) (fld l 6) (fld l 7)
      (fld l 8) (fld l 9)) := by
  have e1 := pyfloat_eq_of_numAt hwf.2.2.1
  have hng := initPlane_no_gap l minel
  have h := (addLine_cases piQ (initPlane l minel) l hwf).2.2 hel hng.2
  rw [hng.1] at h
  simp only [mkPlane, e1, h]

/-! ## Concrete dictionaries and lines for C2, C3, C8 -/

/-- A plane A last heard at epoch 100, cutoff 0. -/
def pA : Plane :=
  { minel := 0, mjd := [56000], id := .raw "A", code := .raw "CA",
    epc := [100], last_epoch := 100, lat := [50], lon := [0], alt := [0],
    ran := [60], az := [1], el := [10], maxel := 10, gaps := 0 }

/-- A store holding only plane A. -/
def PA : Dict := [(Tok.raw "A", pA)]

/-- A fresh well-formed line for an unseen plane B at epoch 200. -/
def lineB : List Tok :=
  [.num 56395, .num 200, .raw "B", .raw "CB", .num 51, .num (-1),
   .num 29525, .num 68, .num 280, .num 10, .num (-474), .num 191, .num 1088]

/-- The plane built from lineB. -/
def pB : Plane :=
  appendPlane 7 (initPlane lineB 0) (fld lineB 1) (fld lineB 0)
    (fld lineB 4) (fld lineB 5) (fld lineB 6) (fld lineB 7) (fld lineB 8)
    (fld lineB 9)

theorem C2_loopB : addPlanesLoop 7 0 PA [lineB] =
    .ok [(Tok.raw "A", pA), (tokAt lineB 2, pB)] := by
  rw [addPlanesLoop_cons_new 7 0 PA lineB [] (fld lineB 9) pB
    (pyfloat_eq_of_numAt (by decide)) (by decide) rfl
    (mkPlane_append 7 lineB 0 (by decide) (by decide))]
  rfl

/-- C2 counterexample: with maxAge = 0 the claim demands eviction of every
track whose last epoch differs from the reference epoch (here by 100), yet
addPlanes with time_alive = 0 runs no eviction at all: plane A, stale by
100 relative to the reference epoch 200, is retained. -/
theorem C2_staleness_counterexample :
    addPlanes 7 [lineB] PA 0 0 = .ok [(Tok.raw "A", pA), (tokAt lineB 2, pB)] ∧
    dictGet [(Tok.raw "A", pA), (tokAt lineB 2, pB)] (Tok.raw "A") = some pA ∧
    |fld lineB 1 - pA.last_epoch| > 0 := by
  refine ⟨addPlanes_no_evict C2_loopB (by decide), rfl, ?_⟩
  norm_num [fld, lineB, tokAt, pyfloat, dTok, pA]

/-- C2 amended: the staleness eviction runs only when maxAge is strictly
positive; with maxAge ≤ 0 (zero included) no track is evicted.  When maxAge
is strictly positive, addPlanes on a nonempty batch keeps exactly the
tracks whose last observed epoch is within maxAge of the raw epoch field of
the last line of the batch. -/
theorem C2_staleness_eviction (piQ minel t : ℚ) (lines : List (List Tok))
    (P Pmid : Dict) (lst : List Tok) (E : ℚ)
    (hne : lines ≠ [])
    (hloop : addPlanesLoop piQ minel P lines = .ok Pmid)
    (hlast : lines.getLast? = some lst)
    (hE : pyfloat (tokAt lst 1) = some E) :
    (t > 0 → addPlanes piQ lines P minel t = .ok (evict Pmid E t)) ∧
    (¬ t > 0 → addPlanes piQ lines P minel t = .ok Pmid) ∧
    (∀ (k : Tok) (p : Plane), (Pmid.map Prod.fst).Nodup →
       (dictGet (evict Pmid E t) k = some p ↔
        dictGet Pmid k = some p ∧ ¬ |E - p.last_epoch| > t)) := by
  have hlne : lines.isEmpty = false := by
    cases lines with
    | nil => exact absurd rfl hne
    | cons a b => rfl
  refine ⟨?_, fun ht => addPlanes_no_evict hloop ht,
    fun k p hnd => dictGet_evict hnd⟩
  intro ht
  by_cases hemp : Pmid.isEmpty = true
  · have hPnil : Pmid = [] := by
      cases Pmid with
      | nil => rfl
      | cons a b => simp at hemp
    subst hPnil
    simp only [addPlanes, hloop]
    rw [if_pos (by simp)]
    rfl
  · exact addPlanes_evict hloop ht
      (by rw [Bool.or_eq_false_iff]
          exact ⟨Bool.eq_false_iff.mpr hemp, hlne⟩) hlast hE

theorem C2_loop_skip : addPlanesLoop 7 1000 PA [lineB] = .ok PA := by
  rw [addPlanesLoop_cons_skip 7 1000 PA lineB [] (fld lineB 9)
    (pyfloat_eq_of_numAt (by decide)) (by decide)]
  rfl

/-- Witness for C2 amended on a one-line batch that the loop skips. -/
theorem C2_staleness_eviction_witness :
    (([lineB] : List (List Tok)) ≠ [] ∧
     addPlanesLoop 7 1000 PA [lineB] = .ok PA ∧
     ([lineB] : List (List Tok)).getLast? = some lineB ∧
     pyfloat (tokAt lineB 1) = some 200) ∧
    (((5 : ℚ) > 0 → addPlanes 7 [lineB] PA 1000 5 = .ok (evict PA 200 5)) ∧
     (¬ (5 : ℚ) > 0 → addPlanes 7 [lineB] PA 1000 5 = .ok PA) ∧
     (∀ (k : Tok) (p : Plane), (PA.map Prod.fst).Nodup →
        (dictGet (evict PA 200 5) k = some p ↔
         dictGet PA k = some p ∧ ¬ |(200 : ℚ) - p.last_epoch| > 5))) :=
  ⟨⟨by decide, C2_loop_skip, rfl, rfl⟩,
   C2_staleness_eviction 7 1000 5 [lineB] PA PA lineB 200 (by decide)
     C2_loop_skip rfl rfl⟩

/-- A plane E last heard at epoch 100, cutoff 5. -/
def pE : Plane :=
  { minel := 5, mjd := [56000], id := .raw "E", code := .raw "CE",
    epc := [100], last_epoch := 100, lat := [50], lon := [0], alt := [0],
    ran := [60], az := [1], el := [10], maxel := 10, gaps := 0 }

/-- A store holding only plane E. -/
def PE : Dict := [(Tok.raw "E", pE)]

/-- A 13-token line for plane E whose latitude token is not numeric. -/
def badLat : List Tok :=
  [.num 56395, .num 210, .raw "E", .raw "CE", .raw "xx", .num (-1),
   .num 29525, .num 68, .num 280, .num 10, .num (-474), .num 191, .num 1088]

theorem badLat_no_gap : ¬ corrE pE (210 : ℚ) - pE.last_epoch > 600000 := by
  norm_num [corrE, pE]

theorem C3_err : addPlanes 7 [badLat] PE 0 (-1) =
    .error (dictSet PE (tokAt badLat 2)
      (partialLat pE (corrE pE 210) 56395)) :=
  addPlanes_of_loop_err
    (addPlanesLoop_cons_known_err 7 0 PE badLat [] 10 pE
      (partialLat pE (corrE pE 210) 56395) rfl (by decide) rfl
      (addLine_err_lat 7 pE badLat 10 210 56395 rfl rfl (by decide) rfl
        badLat_no_gap rfl rfl))

/-- C3 counterexample: a 13-token line with a non-numeric latitude token
raises out of addPlanes (the error does propagate to the caller), and the
raise happens after the epoch and mjd appends, so plane E is left with its
epoch list one entry longer than its latitude list — existing track state
is corrupted, not preserved. -/
theorem C3_malformed_isolation_counterexample :
    exceptVal (addPlanes 7 [badLat] PE 0 (-1)) = false ∧
    (dictGet (exDict (addPlanes 7 [badLat] PE 0 (-1))) (Tok.raw "E")).map
        (fun p => (p.epc.length, p.lat.length)) = some (2, 1) ∧
    pE.epc.length = 1 ∧ pE.lat.length = 1 := by
  refine ⟨?_, ?_, rfl, rfl⟩
  · rw [C3_err]
    rfl
  · rw [C3_err]
    rfl

/-- C3 amended: a non-numeric field where a number is expected raises and
the error propagates out of the batch operation: a non-numeric elevation
token aborts with the store as it stood, while a non-numeric latitude token
on an admitted record aborts after the epoch and mjd appends and the
last-epoch advance, leaving the sample sequences of that track of unequal
length. -/
theorem C3_malformed_record (piQ minel t : ℚ) (P : Dict) (l : List Tok)
    (ls : List (List Tok)) :
    (pyfloat (tokAt l 9) = none →
       addPlanes piQ (l :: ls) P minel t = .error P) ∧
    (∀ (p : Plane) (e9v e1v m0v : ℚ), l.length = 13 →
       pyfloat (tokAt l 9) = some e9v → ¬ e9v < p.minel →
       pyfloat (tokAt l 1) = some e1v →
       ¬ corrE p e1v - p.last_epoch > 600000 →
       pyfloat (tokAt l 0) = some m0v → pyfloat (tokAt l 4) = none →
       addLine piQ p l = .error (partialLat p (corrE p e1v) m0v) ∧
       (partialLat p (corrE p e1v) m0v).epc.length = p.epc.length + 1 ∧
       (partialLat p (corrE p e1v) m0v).lat.length = p.lat.length) := by
  constructor
  · intro h9
    exact addPlanes_of_loop_err (addPlanesLoop_cons_err_el piQ minel P l ls h9)
  · intro p e9v e1v m0v h13 h9 hel h1 hgap h0 h4
    exact ⟨addLine_err_lat piQ p l e9v e1v m0v h13 h9 hel h1 hgap h0 h4,
      by simp [partialLat], by simp [partialLat]⟩

/-- A 13-token line whose elevation token is not numeric. -/
def badEl : List Tok :=
  [.num 56395, .num 210, .raw "E", .raw "CE", .num 50, .num (-1),
   .num 29525, .num 68, .num 280, .raw "zz", .num (-474), .num 191,
   .num 1088]

/-- Witness for C3 amended: the bad-elevation line aborts the batch with the
store unchanged. -/
theorem C3_malformed_record_witness :
    pyfloat (tokAt badEl 9) = none ∧
    addPlanes 7 (badEl :: []) PE 0 (-1) = .error PE :=
  ⟨rfl, (C3_malformed_record 7 0 (-1) PE badEl []).1 rfl⟩

/-- A well-formed line for plane E whose elevation equals the cutoff 5. -/
def lineEq : List Tok :=
  [.num 56395, .num 200, .raw "E", .raw "CE", .num 51, .num (-1),
   .num 29525, .num 68, .num 280, .num 5, .num (-474), .num 191, .num 1088]

theorem C8_loop_empty : addPlanesLoop 7 5 [] [lineEq] = .ok [] := by
  rw [addPlanesLoop_cons_skip 7 5 [] lineEq [] (fld lineEq 9)
    (pyfloat_eq_of_numAt (by decide)) (by decide)]
  rfl

theorem C8_loop_PE : addPlanesLoop 7 5 PE [lineEq] = .ok PE := by
  rw [addPlanesLoop_cons_skip 7 5 PE lineEq [] (fld lineEq 9)
    (pyfloat_eq_of_numAt (by decide)) (by decide)]
  rfl

/-- C8 counterexample: a record whose elevation exactly equals minElevation
(both 5) is dropped by addPlanes: no track is created for the unseen
identifier (the empty store stays empty) and no sample is appended for the
known one (the store with plane E is returned unchanged) — the record is
not admitted. -/
theorem C8_elevation_boundary_counterexample :
    fld lineEq 9 = 5 ∧
    addPlanes 7 [lineEq] [] 5 (-1) = .ok [] ∧
    addPlanes 7 [lineEq] PE 5 (-1) = .ok PE :=
  ⟨rfl, addPlanes_no_evict C8_loop_empty (by decide),
   addPlanes_no_evict C8_loop_PE (by decide)⟩

/-- C8 amended: the batch operation admits a record only when its elevation
strictly exceeds minElevation — at equality (and below) the record is
skipped entirely, creating no track and appending no sample — while the
per-track addLine check alone rejects exactly elevation below the stored
cutoff, so a record at the boundary passes that inner check when addLine is
reached. -/
theorem C8_elevation_boundary (piQ minel : ℚ) (P : Dict) (l : List Tok)
    (rest : List (List Tok)) (e : ℚ)
    (h9 : pyfloat (tokAt l 9) = some e) :
    (¬ e > minel →
       addPlanesLoop piQ minel P (l :: rest) =
         addPlanesLoop piQ minel P rest) ∧
    (∀ p : Plane, wfLine l → fld l 9 = p.minel →
       ¬ corrE p (fld l 1) - p.last_epoch > 600000 →
       addLine piQ p l = .ok (appendPlane piQ p (corrE p (fld l 1))
         (fld l 0) (fld l 4) (fld l 5) (fld l 6) (fld l 7) (fld l 8)
         (fld l 9))) := by
  constructor
  · exact fun hle => addPlanesLoop_cons_skip piQ minel P l rest e h9 hle
  · intro p hwf heq hgap
    exact (addLine_cases piQ p l hwf).2.2 (by rw [heq]; exact lt_irrefl _) hgap

theorem lineEq_no_gap :
    ¬ corrE pE (fld lineEq 1) - pE.last_epoch > 600000 := by
  norm_num [corrE, fld, lineEq, tokAt, pyfloat, dTok, pE]

/-- Witness for C8 amended at the boundary elevation 5 = cutoff 5. -/
theorem C8_elevation_boundary_witness :
    (pyfloat (tokAt lineEq 9) = some 5 ∧ ¬ (5 : ℚ) > 5 ∧ wfLine lineEq ∧
     fld lineEq 9 = pE.minel) ∧
    addPlanesLoop 7 5 PE (lineEq :: []) = addPlanesLoop 7 5 PE [] ∧
    addLine 7 pE lineEq = .ok (appendPlane 7 pE (corrE pE (fld lineEq 1))
      (fld lineEq 0) (fld lineEq 4) (fld lineEq 5) (fld lineEq 6)
      (fld lineEq 7) (fld lineEq 8) (fld lineEq 9)) :=
  ⟨⟨rfl, by decide, by decide, rfl⟩,
   (C8_elevation_boundary 7 5 PE lineEq [] 5 rfl).1 (by decide),
   (C8_elevation_boundary 7 5 PE lineEq [] 5 rfl).2 pE (by decide) rfl
     lineEq_no_gap⟩

end L2pGUI
